import Mathlib

/-!
Verification of the ytb_dual_subtitles repository core:
the bilingual subtitle aligner (core/subtitle_generator.py) and the
download task orchestrator (core/download_manager.py, database/task_dao.py,
models/video.py).

Python floats are modelled as exact rationals; Python dicts for subtitle
segments are modelled as structures whose fields correspond to the dict
keys used by the code.
-/

/-- A subtitle segment as consumed by
SubtitleGenerator.generate_bilingual_subtitles: a dict with keys
sequence, start_time, end_time, duration, text and possibly chinese
(the code reads the chinese key of the other-track segment with
zh_segment.get with the text key value as default). -/
structure Seg where
  sequence : Nat
  start_time : ℚ
  end_time : ℚ
  duration : ℚ := 0
  text : String
  chinese : Option String := none
deriving DecidableEq, Repr

/-- A bilingual output segment: the dict built by
generate_bilingual_subtitles.  The confidence key is absent (none) on the
no-chinese-track branch, which spreads the input dict and adds only
english, chinese and is_translated. -/
structure BiSeg where
  sequence : Nat
  start_time : ℚ
  end_time : ℚ
  duration : ℚ
  english : String
  chinese : String
  is_translated : Bool
  confidence : Option ℚ := none
deriving DecidableEq, Repr

/-- SubtitleGenerator.__init__ default sync_tolerance = 0.1 (seconds). -/
def defaultSyncTolerance : ℚ := 1/10

/-- SubtitleGenerator._timelines_overlap: overlap with the sync tolerance,
return (start1 - tol <= end2) and (start2 - tol <= end1). -/
def timelines_overlap (tol start1 end1 start2 end2 : ℚ) : Bool :=
  decide (start1 - tol ≤ end2) && decide (start2 - tol ≤ end1)

/-- The overlap check as called from _find_matching_chinese_text:
self._timelines_overlap(en_start, en_end, zh_start, zh_end). -/
def overlapsRef (tol : ℚ) (en zh : Seg) : Bool :=
  timelines_overlap tol en.start_time en.end_time zh.start_time zh.end_time

/-- The text taken from a matched other-track segment:
zh_segment.get('chinese', zh_segment.get('text', '')). -/
def zhOf (zh : Seg) : String :=
  zh.chinese.getD zh.text

/-- SubtitleGenerator._find_matching_chinese_text: first other-track
segment passing the overlap test wins; otherwise the first segment with
the same sequence number; otherwise the English original text. -/
def find_matching_chinese_text (tol : ℚ) (en : Seg) (chinese_segments : List Seg) : String :=
  match chinese_segments.find? (fun zh => overlapsRef tol en zh) with
  | some zh => zhOf zh
  | none =>
    match chinese_segments.find? (fun zh => zh.sequence == en.sequence) with
    | some zh => zhOf zh
    | none => en.text

/-- SubtitleGenerator._calculate_match_confidence: 0.5 if untranslated,
0.9 if both texts non-empty, else 0.1 (Python string truthiness is
non-emptiness). -/
def calculate_match_confidence (en : Seg) (zh_text : String) : ℚ :=
  if zh_text = en.text then 1/2
  else if zh_text ≠ "" ∧ en.text ≠ "" then 9/10
  else 1/10

/-- One step of SubtitleGenerator.sync_timeline: given the end of the
previous already-synced segment (none for the first segment), snap the
start when the gap is within tolerance (the code compares with
sync_tolerance + 1e-9), then repair a non-positive duration to a
1-second minimum. -/
def sync_aux (tol : ℚ) (prev_end : Option ℚ) : List BiSeg → List BiSeg
  | [] => []
  | s :: rest =>
    let start1 : ℚ :=
      match prev_end with
      | some pe => if |s.start_time - pe| ≤ tol + 1/1000000000 then pe else s.start_time
      | none => s.start_time
    let s' : BiSeg :=
      if s.end_time ≤ start1 then
        { s with start_time := start1, end_time := start1 + 1, duration := 1 }
      else
        { s with start_time := start1, duration := s.end_time - start1 }
    s' :: sync_aux tol (some s'.end_time) rest

/-- SubtitleGenerator.sync_timeline with tolerance = the instance's
sync_tolerance (generate_bilingual_subtitles passes no explicit
tolerance). -/
def sync_timeline (tol : ℚ) (segments : List BiSeg) : List BiSeg :=
  sync_aux tol none segments

/-- The bilingual dict built for one reference segment inside the main
loop of generate_bilingual_subtitles. -/
def mkBilingual (tol : ℚ) (chinese_segments : List Seg) (en : Seg) : BiSeg :=
  let zh_text := find_matching_chinese_text tol en chinese_segments
  { sequence := en.sequence
    start_time := en.start_time
    end_time := en.end_time
    duration := en.duration
    english := en.text
    chinese := zh_text
    is_translated := decide (zh_text ≠ en.text)
    confidence := some (calculate_match_confidence en zh_text) }

/-- The dict built on the no-chinese-track branch of
generate_bilingual_subtitles: the input segment spread together with
english and chinese both set to the segment text and is_translated
False. -/
def untranslatedOf (s : Seg) : BiSeg :=
  { sequence := s.sequence
    start_time := s.start_time
    end_time := s.end_time
    duration := s.duration
    english := s.text
    chinese := s.text
    is_translated := false
    confidence := none }

/-- SubtitleGenerator.generate_bilingual_subtitles: empty reference list
gives an empty result; empty other-track list copies the English text
into both languages with is_translated False; otherwise each reference
segment is paired via _find_matching_chinese_text and the list is passed
through sync_timeline. -/
def generate_bilingual_subtitles (tol : ℚ) (english_segments chinese_segments : List Seg) :
    List BiSeg :=
  match english_segments with
  | [] => []
  | _ :: _ =>
    match chinese_segments with
    | [] => english_segments.map untranslatedOf
    | _ :: _ =>
      sync_timeline tol (english_segments.map (mkBilingual tol chinese_segments))

/-- The synchronization pass never changes the number of segments. -/
theorem sync_aux_length (tol : ℚ) (pe : Option ℚ) (l : List BiSeg) :
    (sync_aux tol pe l).length = l.length := by
  induction l generalizing pe with
  | nil => rfl
  | cons s rest ih => simp [sync_aux, ih]

/-- The synchronization pass only rewrites timing fields: the english and
chinese texts of every segment are unchanged. -/
theorem sync_aux_texts (tol : ℚ) (pe : Option ℚ) (l : List BiSeg) :
    (sync_aux tol pe l).map (fun b => (b.english, b.chinese)) =
      l.map (fun b => (b.english, b.chinese)) := by
  induction l generalizing pe with
  | nil => rfl
  | cons s rest ih =>
    simp only [sync_aux, List.map_cons, ih]
    congr 1
    split <;> rfl

/-- A successful find? returns the first element satisfying the
predicate: there is an index where it sits, and every earlier index
fails the predicate. -/
theorem find?_first_idx {α : Type} (p : α → Bool) (l : List α) (a : α)
    (h : l.find? p = some a) :
    ∃ j : Fin l.length, l.get j = a ∧ p a = true ∧
      ∀ k : Fin l.length, k.val < j.val → p (l.get k) = false := by
  induction l with
  | nil => simp [List.find?] at h
  | cons x xs ih =>
    cases hx : p x with
    | true =>
      rw [List.find?_cons_of_pos _ hx] at h
      obtain rfl : x = a := by injection h
      refine ⟨⟨0, Nat.succ_pos _⟩, rfl, hx, ?_⟩
      intro k hk
      exact absurd hk (Nat.not_lt_zero _)
    | false =>
      rw [List.find?_cons_of_neg _ (by simp [hx])] at h
      obtain ⟨j, hget, hp, hmin⟩ := ih h
      refine ⟨⟨j.val + 1, Nat.succ_lt_succ j.isLt⟩, hget, hp, ?_⟩
      intro k hk
      obtain ⟨kv, hkv⟩ := k
      cases kv with
      | zero => exact hx
      | succ n =>
        exact hmin ⟨n, Nat.lt_of_succ_lt_succ hkv⟩ (Nat.lt_of_succ_lt_succ hk)

/-- Conversely, if the element at index j satisfies the predicate and
every earlier element fails it, find? returns exactly that element. -/
theorem find?_eq_get_of_first {α : Type} (p : α → Bool) (l : List α) (j : Fin l.length)
    (hp : p (l.get j) = true)
    (hmin : ∀ k : Fin l.length, k.val < j.val → p (l.get k) = false) :
    l.find? p = some (l.get j) := by
  induction l with
  | nil => exact absurd j.isLt (by simp)
  | cons x xs ih =>
    obtain ⟨jv, hjv⟩ := j
    cases jv with
    | zero => exact List.find?_cons_of_pos _ hp
    | succ n =>
      have hx : p x = false := hmin ⟨0, Nat.succ_pos _⟩ (Nat.succ_pos _)
      rw [List.find?_cons_of_neg _ (by simp [hx])]
      exact ih ⟨n, Nat.lt_of_succ_lt_succ hjv⟩ hp
        (fun k hk => hmin ⟨k.val + 1, Nat.succ_lt_succ k.isLt⟩ (Nat.succ_lt_succ hk))

/-- The aligner never drops a reference segment: the output has exactly
one bilingual segment per reference segment. -/
theorem generate_length (tol : ℚ) (ens zhs : List Seg) :
    (generate_bilingual_subtitles tol ens zhs).length = ens.length := by
  cases ens with
  | nil => rfl
  | cons e es =>
    cases zhs with
    | nil => simp [generate_bilingual_subtitles]
    | cons z zs =>
      simp [generate_bilingual_subtitles, sync_timeline, sync_aux_length]

/-- On the main path (both tracks non-empty), the i-th output segment
carries the i-th reference text as english and the result of
_find_matching_chinese_text as chinese. -/
theorem generate_get_texts (tol : ℚ) (ens zhs : List Seg) (hzhs : zhs ≠ [])
    (i : Nat) (hi : i < ens.length)
    (hig : i < (generate_bilingual_subtitles tol ens zhs).length) :
    ((generate_bilingual_subtitles tol ens zhs).get ⟨i, hig⟩).english = (ens.get ⟨i, hi⟩).text ∧
    ((generate_bilingual_subtitles tol ens zhs).get ⟨i, hig⟩).chinese =
      find_matching_chinese_text tol (ens.get ⟨i, hi⟩) zhs := by
  cases ens with
  | nil => exact absurd hi (by simp)
  | cons e es =>
    cases zhs with
    | nil => exact absurd rfl hzhs
    | cons z zs =>
      have hA : i < (((sync_aux tol none ((e :: es).map (mkBilingual tol (z :: zs)))).map
          (fun b => (b.english, b.chinese))).length) := by
        simp only [List.length_map, sync_aux_length]
        simpa using hi
      have key := List.get_of_eq
        (sync_aux_texts tol none ((e :: es).map (mkBilingual tol (z :: zs)))) ⟨i, hA⟩
      simp only [List.get_eq_getElem, List.getElem_map] at key
      exact ⟨congrArg Prod.fst key, congrArg Prod.snd key⟩

/-- On the main path the english and chinese texts of the output are the
reference texts paired with the _find_matching_chinese_text results. -/
theorem generate_pair_map (tol : ℚ) (ens zhs : List Seg) (hens : ens ≠ []) (hzhs : zhs ≠ []) :
    (generate_bilingual_subtitles tol ens zhs).map (fun b => (b.english, b.chinese)) =
      ens.map (fun s => (s.text, find_matching_chinese_text tol s zhs)) := by
  cases ens with
  | nil => exact absurd rfl hens
  | cons e es =>
    cases zhs with
    | nil => exact absurd rfl hzhs
    | cons z zs =>
      calc (generate_bilingual_subtitles tol (e :: es) (z :: zs)).map
            (fun b => (b.english, b.chinese))
          = ((e :: es).map (mkBilingual tol (z :: zs))).map (fun b => (b.english, b.chinese)) :=
            sync_aux_texts tol none ((e :: es).map (mkBilingual tol (z :: zs)))
        _ = (e :: es).map ((fun b : BiSeg => (b.english, b.chinese)) ∘ mkBilingual tol (z :: zs)) :=
            by rw [List.map_map]
        _ = (e :: es).map (fun s => (s.text, find_matching_chinese_text tol s (z :: zs))) := rfl

/-- C1 counterexample: a reference segment with no temporal overlap and
no sequence-number match in the other track.  The claim says the
secondary text is then empty; the code instead returns the English
original, so the produced chinese text is the non-empty reference
text. -/
def c1RefSeg : Seg := { sequence := 1, start_time := 0, end_time := 1, text := "hello" }

/-- C1 counterexample other-track segment: far away in time and with a
different sequence number. -/
def c1OtherSeg : Seg := { sequence := 2, start_time := 100, end_time := 101, text := "W" }

/-- C1: the claim as stated is false: for a reference segment with no
overlap match and no sequence match, the output secondary text is the
English original "hello", not the empty string. -/
theorem C1_counterexample :
    overlapsRef defaultSyncTolerance c1RefSeg c1OtherSeg = false ∧
    c1OtherSeg.sequence ≠ c1RefSeg.sequence ∧
    (generate_bilingual_subtitles defaultSyncTolerance [c1RefSeg] [c1OtherSeg]).map
      (fun b => b.chinese) = ["hello"] ∧
    "hello" ≠ "" := by
  refine ⟨?_, ?_, ?_, ?_⟩
  · norm_num [overlapsRef, timelines_overlap, c1RefSeg, c1OtherSeg, defaultSyncTolerance]
  · norm_num [c1RefSeg, c1OtherSeg]
  · norm_num [generate_bilingual_subtitles, mkBilingual, find_matching_chinese_text, overlapsRef,
      timelines_overlap, zhOf, sync_timeline, sync_aux, List.find?, c1RefSeg, c1OtherSeg,
      defaultSyncTolerance]
    rfl
  · decide

/-- C1 (amended): if no other-track segment passes the temporal overlap
test for a reference segment and the same-sequence-number fallback also
finds no match, the produced bilingual segment carries the reference
segment's own text as its secondary text (the aligner falls back to the
English original rather than an empty string), and the reference segment
is never dropped (one output segment per reference segment). -/
theorem C1_amended (tol : ℚ) (ens zhs : List Seg) (i : Fin ens.length)
    (hnov : ∀ zh ∈ zhs, overlapsRef tol (ens.get i) zh = false)
    (hnseq : ∀ zh ∈ zhs, zh.sequence ≠ (ens.get i).sequence) :
    (generate_bilingual_subtitles tol ens zhs).length = ens.length ∧
    ∀ hig : i.val < (generate_bilingual_subtitles tol ens zhs).length,
      ((generate_bilingual_subtitles tol ens zhs).get ⟨i.val, hig⟩).chinese = (ens.get i).text ∧
      ((generate_bilingual_subtitles tol ens zhs).get ⟨i.val, hig⟩).english = (ens.get i).text := by
  refine ⟨generate_length tol ens zhs, ?_⟩
  cases zhs with
  | nil =>
    intro hig
    cases ens with
    | nil => exact absurd i.isLt (by simp)
    | cons e es =>
      have hgen : generate_bilingual_subtitles tol (e :: es) [] =
          (e :: es).map untranslatedOf := rfl
      rw [List.get_eq_getElem]
      constructor
      · simp only [hgen, List.getElem_map]
        simp [untranslatedOf, List.get_eq_getElem]
      · simp only [hgen, List.getElem_map]
        simp [untranslatedOf, List.get_eq_getElem]
  | cons z zs =>
    intro hig
    have hzhs : z :: zs ≠ ([] : List Seg) := List.cons_ne_nil z zs
    have htex := generate_get_texts tol ens (z :: zs) hzhs i.val i.isLt hig
    have hfind1 : (z :: zs).find? (fun zh => overlapsRef tol (ens.get i) zh) = none := by
      rw [List.find?_eq_none]
      intro x hx
      rw [Bool.not_eq_true]
      exact hnov x hx
    have hfind2 : (z :: zs).find? (fun zh => zh.sequence == (ens.get i).sequence) = none := by
      rw [List.find?_eq_none]
      intro x hx
      rw [Bool.not_eq_true]
      exact beq_eq_false_iff_ne.mpr (hnseq x hx)
    have hmatch : find_matching_chinese_text tol (ens.get i) (z :: zs) = (ens.get i).text := by
      unfold find_matching_chinese_text
      rw [hfind1, hfind2]
    constructor
    · rw [htex.2]
      exact hmatch
    · rw [htex.1]

/-- C1 witness input check: applying the amended theorem at the concrete
counterexample pair shows the fallback produces the reference text. -/
theorem C1_amended_witness :
    (generate_bilingual_subtitles defaultSyncTolerance [c1RefSeg] [c1OtherSeg]).length =
      ([c1RefSeg] : List Seg).length ∧
    ∀ hig : 0 < (generate_bilingual_subtitles defaultSyncTolerance [c1RefSeg] [c1OtherSeg]).length,
      ((generate_bilingual_subtitles defaultSyncTolerance [c1RefSeg] [c1OtherSeg]).get
        ⟨0, hig⟩).chinese = c1RefSeg.text ∧
      ((generate_bilingual_subtitles defaultSyncTolerance [c1RefSeg] [c1OtherSeg]).get
        ⟨0, hig⟩).english = c1RefSeg.text := by
  have h1 : ∀ zh ∈ ([c1OtherSeg] : List Seg), overlapsRef defaultSyncTolerance c1RefSeg zh = false := by
    intro zh hzh
    have : zh = c1OtherSeg := by simpa using hzh
    subst this
    norm_num [overlapsRef, timelines_overlap, c1RefSeg, c1OtherSeg, defaultSyncTolerance]
  have h2 : ∀ zh ∈ ([c1OtherSeg] : List Seg), zh.sequence ≠ c1RefSeg.sequence := by
    intro zh hzh
    have : zh = c1OtherSeg := by simpa using hzh
    subst this
    simp [c1RefSeg, c1OtherSeg]
  exact C1_amended defaultSyncTolerance [c1RefSeg] [c1OtherSeg] ⟨0, Nat.one_pos⟩ h1 h2

/-- C2: the overlap test is exactly ref.start - tol <= other.end and
other.start - tol <= ref.end with the default tolerance 1/10 second, the
boundary is inclusive (gap exactly equal to the tolerance overlaps), and
a gap of tolerance + eps for any positive eps does not overlap. -/
theorem C2_overlap_boundary (start1 end1 start2 end2 eps : ℚ) (heps : 0 < eps) :
    defaultSyncTolerance = 1/10 ∧
    (timelines_overlap defaultSyncTolerance start1 end1 start2 end2 = true ↔
      (start1 - defaultSyncTolerance ≤ end2 ∧ start2 - defaultSyncTolerance ≤ end1)) ∧
    (start2 - defaultSyncTolerance ≤ end1 →
      timelines_overlap defaultSyncTolerance start1 end1 start2
        (start1 - defaultSyncTolerance) = true) ∧
    timelines_overlap defaultSyncTolerance start1 end1 start2
      (start1 - defaultSyncTolerance - eps) = false := by
  refine ⟨rfl, ?_, ?_, ?_⟩
  · simp [timelines_overlap]
  · intro h
    simp [timelines_overlap, h]
  · have h : ¬ (start1 - defaultSyncTolerance ≤ start1 - defaultSyncTolerance - eps) := by
      linarith
    simp [timelines_overlap, h]

/-- C2 witness: the boundary behaviour at concrete inputs. -/
theorem C2_overlap_boundary_witness :
    (0:ℚ) < 1 ∧
    defaultSyncTolerance = 1/10 ∧
    (timelines_overlap defaultSyncTolerance 0 0 0 0 = true ↔
      ((0:ℚ) - defaultSyncTolerance ≤ 0 ∧ (0:ℚ) - defaultSyncTolerance ≤ 0)) ∧
    ((0:ℚ) - defaultSyncTolerance ≤ 0 →
      timelines_overlap defaultSyncTolerance 0 0 0 (0 - defaultSyncTolerance) = true) ∧
    timelines_overlap defaultSyncTolerance 0 0 0 (0 - defaultSyncTolerance - 1) = false := by
  have h := C2_overlap_boundary 0 0 0 0 1 one_pos
  exact ⟨one_pos, h.1, h.2.1, h.2.2.1, h.2.2.2⟩

/-- C3 counterexample reference segment. -/
def c3RefSeg : Seg := { sequence := 1, start_time := 5, end_time := 6, text := "b" }

/-- C3 counterexample: an other-track segment that barely overlaps the
reference (within tolerance) but starts 5 seconds earlier; it comes
first in the track order. -/
def c3FarSeg : Seg := { sequence := 7, start_time := 0, end_time := 251/50, text := "far" }

/-- C3 counterexample: an other-track segment with exactly the same start
time as the reference, listed after the far one. -/
def c3NearSeg : Seg := { sequence := 8, start_time := 5, end_time := 6, text := "near" }

/-- C3: the claim as stated is false: both candidates pass the overlap
test and the near one has the strictly smaller start-time difference,
but the aligner picks the far one because it comes first in list
order. -/
theorem C3_counterexample :
    overlapsRef defaultSyncTolerance c3RefSeg c3FarSeg = true ∧
    overlapsRef defaultSyncTolerance c3RefSeg c3NearSeg = true ∧
    |c3NearSeg.start_time - c3RefSeg.start_time| < |c3FarSeg.start_time - c3RefSeg.start_time| ∧
    (generate_bilingual_subtitles defaultSyncTolerance [c3RefSeg] [c3FarSeg, c3NearSeg]).map
      (fun b => b.chinese) = ["far"] := by
  refine ⟨?_, ?_, ?_, ?_⟩
  · norm_num [overlapsRef, timelines_overlap, c3RefSeg, c3FarSeg, defaultSyncTolerance]
  · norm_num [overlapsRef, timelines_overlap, c3RefSeg, c3NearSeg, defaultSyncTolerance]
  · norm_num [c3RefSeg, c3FarSeg, c3NearSeg]
  · norm_num [generate_bilingual_subtitles, mkBilingual, find_matching_chinese_text, overlapsRef,
      timelines_overlap, zhOf, sync_timeline, sync_aux, List.find?, c3RefSeg, c3FarSeg, c3NearSeg,
      defaultSyncTolerance]

/-- C3 (amended): when at least one other-track segment passes the
overlap test, the aligner deterministically selects the first passing
candidate in the other track's list order (not the closest-start one),
and the output secondary text is taken from that candidate. -/
theorem C3_amended (tol : ℚ) (ens zhs : List Seg) (i : Fin ens.length)
    (hex : ∃ zh ∈ zhs, overlapsRef tol (ens.get i) zh = true) :
    ∃ j : Fin zhs.length,
      overlapsRef tol (ens.get i) (zhs.get j) = true ∧
      (∀ k : Fin zhs.length, k.val < j.val → overlapsRef tol (ens.get i) (zhs.get k) = false) ∧
      ∀ hig : i.val < (generate_bilingual_subtitles tol ens zhs).length,
        ((generate_bilingual_subtitles tol ens zhs).get ⟨i.val, hig⟩).chinese =
          zhOf (zhs.get j) := by
  obtain ⟨zh0, hzh0, hov0⟩ := hex
  have hzhs : zhs ≠ [] := by
    intro h
    rw [h] at hzh0
    exact absurd hzh0 (List.not_mem_nil zh0)
  obtain ⟨a, ha⟩ : ∃ a, zhs.find? (fun zh => overlapsRef tol (ens.get i) zh) = some a := by
    cases hf : zhs.find? (fun zh => overlapsRef tol (ens.get i) zh) with
    | some a => exact ⟨a, rfl⟩
    | none => exact absurd hov0 (List.find?_eq_none.mp hf zh0 hzh0)
  obtain ⟨j, hget, hp, hmin⟩ := find?_first_idx _ _ _ ha
  refine ⟨j, ?_, ?_, ?_⟩
  · rw [hget]
    exact hp
  · intro k hk
    exact hmin k hk
  · intro hig
    have htex := generate_get_texts tol ens zhs hzhs i.val i.isLt hig
    rw [htex.2]
    show find_matching_chinese_text tol (ens.get i) zhs = zhOf (zhs.get j)
    unfold find_matching_chinese_text
    rw [ha, hget]

/-- C3 witness: at the counterexample input the first-listed overlapping
candidate (the far one, index 0) is selected. -/
theorem C3_amended_witness :
    (∃ zh ∈ ([c3FarSeg, c3NearSeg] : List Seg),
      overlapsRef defaultSyncTolerance c3RefSeg zh = true) ∧
    ∃ j : Fin ([c3FarSeg, c3NearSeg] : List Seg).length,
      overlapsRef defaultSyncTolerance c3RefSeg (([c3FarSeg, c3NearSeg] : List Seg).get j) = true ∧
      (∀ k : Fin ([c3FarSeg, c3NearSeg] : List Seg).length, k.val < j.val →
        overlapsRef defaultSyncTolerance c3RefSeg (([c3FarSeg, c3NearSeg] : List Seg).get k) = false) ∧
      ∀ hig : 0 < (generate_bilingual_subtitles defaultSyncTolerance [c3RefSeg]
          [c3FarSeg, c3NearSeg]).length,
        ((generate_bilingual_subtitles defaultSyncTolerance [c3RefSeg]
          [c3FarSeg, c3NearSeg]).get ⟨0, hig⟩).chinese =
          zhOf (([c3FarSeg, c3NearSeg] : List Seg).get j) := by
  have hex : ∃ zh ∈ ([c3FarSeg, c3NearSeg] : List Seg),
      overlapsRef defaultSyncTolerance c3RefSeg zh = true := by
    refine ⟨c3FarSeg, by simp, ?_⟩
    norm_num [overlapsRef, timelines_overlap, c3RefSeg, c3FarSeg, defaultSyncTolerance]
  exact ⟨hex, C3_amended defaultSyncTolerance [c3RefSeg] [c3FarSeg, c3NearSeg]
    ⟨0, Nat.one_pos⟩ hex⟩

/-- C4 counterexample: a gapless track whose second segment starts where
the first ends. -/
def c4Track : List Seg :=
  [ { sequence := 1, start_time := 0, end_time := 5, text := "A" },
    { sequence := 2, start_time := 5, end_time := 6, text := "B" } ]

/-- C4: the claim as stated is false: aligning the gapless two-segment
track against itself pairs the second segment with the first one's text
(the first overlapping candidate in list order), so its secondary text
"A" differs from its primary text "B". -/
theorem C4_counterexample :
    (generate_bilingual_subtitles defaultSyncTolerance c4Track c4Track).map
      (fun b => (b.english, b.chinese)) = [("A", "A"), ("B", "A")] ∧
    ¬ ∀ b ∈ generate_bilingual_subtitles defaultSyncTolerance c4Track c4Track,
        b.chinese = b.english := by
  have hmap : (generate_bilingual_subtitles defaultSyncTolerance c4Track c4Track).map
      (fun b => (b.english, b.chinese)) = [("A", "A"), ("B", "A")] := by
    norm_num [generate_bilingual_subtitles, mkBilingual, find_matching_chinese_text, overlapsRef,
      timelines_overlap, zhOf, sync_timeline, sync_aux, List.find?, c4Track, defaultSyncTolerance]
  refine ⟨hmap, ?_⟩
  intro hall
  have hlen : (generate_bilingual_subtitles defaultSyncTolerance c4Track c4Track).length = 2 := by
    have := congrArg List.length hmap
    simpa using this
  have hmem := List.get_mem (generate_bilingual_subtitles defaultSyncTolerance c4Track c4Track)
    1 (by omega)
  have hpair : ((generate_bilingual_subtitles defaultSyncTolerance c4Track c4Track).map
      (fun b => (b.english, b.chinese))).get ⟨1, by simp [hlen]⟩ = ("B", "A") := by
    rw [List.get_of_eq hmap ⟨1, by simp [hlen]⟩]
    rfl
  rw [List.get_eq_getElem, List.getElem_map] at hpair
  have heq := hall _ hmem
  rw [List.get_eq_getElem] at heq
  have hE : _ = "B" := congrArg Prod.fst hpair
  have hC : _ = "A" := congrArg Prod.snd hpair
  exact absurd (hC.symm.trans (heq.trans hE)) (by decide)

/-- C4 (amended): aligning a track against itself yields secondary text
equal to primary text for every output segment, provided no two distinct
segments of the track pass the overlap test against each other (for
example, when consecutive segments are separated by more than the
tolerance), every segment passes the overlap test against itself, and the
segments carry no separate chinese field. -/
theorem C4_amended (tol : ℚ) (t : List Seg)
    (hdisj : t.Pairwise (fun a b => overlapsRef tol a b = false ∧ overlapsRef tol b a = false))
    (hself : ∀ s ∈ t, overlapsRef tol s s = true)
    (hplain : ∀ s ∈ t, s.chinese = none) :
    ∀ b ∈ generate_bilingual_subtitles tol t t, b.chinese = b.english := by
  intro b hb
  have hens : t ≠ [] := by
    intro h
    subst h
    simp [generate_bilingual_subtitles] at hb
  have hmap := generate_pair_map tol t t hens hens
  have hbpair : (b.english, b.chinese) ∈
      t.map (fun s => (s.text, find_matching_chinese_text tol s t)) := by
    rw [← hmap]
    exact List.mem_map_of_mem _ hb
  obtain ⟨s, hs, heq⟩ := List.mem_map.mp hbpair
  obtain ⟨i, hi⟩ := List.mem_iff_get.mp hs
  have hpairwise := List.pairwise_iff_get.mp hdisj
  have hfind : t.find? (fun zh => overlapsRef tol s zh) = some (t.get i) := by
    apply find?_eq_get_of_first
    · show overlapsRef tol s (t.get i) = true
      rw [hi]
      exact hself s hs
    · intro k hk
      show overlapsRef tol s (t.get k) = false
      rw [← hi]
      exact (hpairwise k i hk).2
  have hfmt : find_matching_chinese_text tol s t = zhOf (t.get i) := by
    unfold find_matching_chinese_text
    rw [hfind]
  have hzh : zhOf (t.get i) = s.text := by
    rw [hi]
    unfold zhOf
    rw [hplain s hs]
    rfl
  have hE : b.english = s.text := congrArg Prod.fst heq.symm
  have hC : b.chinese = find_matching_chinese_text tol s t := congrArg Prod.snd heq.symm
  rw [hC, hfmt, hzh, hE]

/-- C4 witness track: two segments separated by a gap larger than the
tolerance. -/
def c4GapTrack : List Seg :=
  [ { sequence := 1, start_time := 0, end_time := 1, text := "A" },
    { sequence := 2, start_time := 2, end_time := 3, text := "B" } ]

/-- C4 witness: on the well-separated track, self-alignment copies each
segment's own text. -/
theorem C4_amended_witness :
    c4GapTrack.Pairwise (fun a b => overlapsRef defaultSyncTolerance a b = false ∧
      overlapsRef defaultSyncTolerance b a = false) ∧
    (∀ s ∈ c4GapTrack, overlapsRef defaultSyncTolerance s s = true) ∧
    (∀ s ∈ c4GapTrack, s.chinese = none) ∧
    ∀ b ∈ generate_bilingual_subtitles defaultSyncTolerance c4GapTrack c4GapTrack,
      b.chinese = b.english := by
  have h1 : c4GapTrack.Pairwise (fun a b => overlapsRef defaultSyncTolerance a b = false ∧
      overlapsRef defaultSyncTolerance b a = false) := by
    norm_num [List.pairwise_cons, c4Track, overlapsRef, timelines_overlap, c4GapTrack,
      defaultSyncTolerance]
  have h2 : ∀ s ∈ c4GapTrack, overlapsRef defaultSyncTolerance s s = true := by
    intro s hs
    rcases (by simpa [c4GapTrack] using hs : s = _ ∨ s = _) with h | h <;>
      subst h <;>
      norm_num [overlapsRef, timelines_overlap, c4GapTrack, defaultSyncTolerance]
  have h3 : ∀ s ∈ c4GapTrack, s.chinese = none := by
    intro s hs
    rcases (by simpa [c4GapTrack] using hs : s = _ ∨ s = _) with h | h <;> subst h <;> rfl
  exact ⟨h1, h2, h3, C4_amended defaultSyncTolerance c4GapTrack h1 h2 h3⟩

/-- C10: an empty reference list yields an empty result, and a non-empty
reference list with an empty other-language list yields one output
segment per reference segment whose secondary text equals the primary
English text, marked as not translated. -/
theorem C10_degenerate_tracks (tol : ℚ) (ens zhs : List Seg) :
    generate_bilingual_subtitles tol [] zhs = [] ∧
    (generate_bilingual_subtitles tol ens []).length = ens.length ∧
    ∀ (i : Fin ens.length) (hig : i.val < (generate_bilingual_subtitles tol ens []).length),
      ((generate_bilingual_subtitles tol ens []).get ⟨i.val, hig⟩).english = (ens.get i).text ∧
      ((generate_bilingual_subtitles tol ens []).get ⟨i.val, hig⟩).chinese = (ens.get i).text ∧
      ((generate_bilingual_subtitles tol ens []).get ⟨i.val, hig⟩).is_translated = false := by
  refine ⟨rfl, generate_length tol ens [], ?_⟩
  cases ens with
  | nil =>
    intro i
    exact absurd i.isLt (by simp)
  | cons e es =>
    intro i hig
    have hgen : generate_bilingual_subtitles tol (e :: es) [] =
        (e :: es).map untranslatedOf := rfl
    rw [List.get_eq_getElem]
    refine ⟨?_, ?_, ?_⟩ <;>
      · simp only [hgen, List.getElem_map]
        simp [untranslatedOf, List.get_eq_getElem]

/-- A persisted download_tasks row (database/models.py): task_id is the
TEXT PRIMARY KEY.  Timestamps are modelled as natural numbers. -/
structure TaskRec where
  task_id : String
  url : String
  title : Option String := none
  status : String := "pending"
  progress : Nat := 0
  error_message : Option String := none
  status_message : String := ""
  retry_count : Nat := 0
  downloaded_bytes : Nat := 0
  total_bytes : Nat := 0
  created_at : Nat := 0
  started_at : Option Nat := none
  completed_at : Option Nat := none
  last_updated : Nat := 0
deriving DecidableEq, Repr

/-- The five values of the DownloadTaskStatus enum in models/video.py:
PENDING, DOWNLOADING, COMPLETED, ERROR, CANCELLED (there is no FAILED
member). -/
def enumStatusStrings : List String :=
  ["pending", "downloading", "completed", "error", "cancelled"]

/-- A partial field update passed to TaskDAO.update_task (the updates
dict); none means the field is not in the dict. -/
structure TaskPatch where
  status : Option String := none
  title : Option (Option String) := none
  progress : Option Nat := none
  error_message : Option (Option String) := none
  status_message : Option String := none
  retry_count : Option Nat := none
  started_at : Option (Option Nat) := none
  completed_at : Option (Option Nat) := none
deriving DecidableEq, Repr

/-- Applying an update dict to a row: listed fields are overwritten and
last_updated is always stamped (TaskDAO.update_task line 96). -/
def applyPatch (now : Nat) (p : TaskPatch) (r : TaskRec) : TaskRec :=
  { r with
    status := p.status.getD r.status
    title := p.title.getD r.title
    progress := p.progress.getD r.progress
    error_message := p.error_message.getD r.error_message
    status_message := p.status_message.getD r.status_message
    retry_count := p.retry_count.getD r.retry_count
    started_at := p.started_at.getD r.started_at
    completed_at := p.completed_at.getD r.completed_at
    last_updated := now }

/-- TaskDAO.update_task: UPDATE download_tasks SET ... WHERE task_id = ?;
returns the updated store and the rowcount > 0 flag. -/
def update_task (store : List TaskRec) (id : String) (p : TaskPatch) (now : Nat) :
    List TaskRec × Bool :=
  (store.map (fun r => if r.task_id == id then applyPatch now p r else r),
   store.any (fun r => r.task_id == id))

/-- TaskDAO.get_task: SELECT * WHERE task_id = ? (first matching row). -/
def get_task (store : List TaskRec) (id : String) : Option TaskRec :=
  store.find? (fun r => r.task_id == id)

/-- Insert into a list kept in descending created_at order (model of the
SQL ORDER BY created_at DESC). -/
def insertDesc (r : TaskRec) : List TaskRec → List TaskRec
  | [] => [r]
  | x :: xs => if x.created_at > r.created_at then x :: insertDesc r xs else r :: x :: xs

/-- Sort rows by created_at descending. -/
def sortByCreatedDesc (l : List TaskRec) : List TaskRec :=
  l.foldr insertDesc []

/-- TaskDAO.get_tasks_by_status: SELECT * WHERE status = ? ORDER BY
created_at DESC. -/
def get_tasks_by_status (store : List TaskRec) (s : String) : List TaskRec :=
  sortByCreatedDesc (store.filter (fun r => r.status == s))

/-- The WHERE clause of get_active_task_by_url: url = ? AND status IN
('pending','downloading','processing'). -/
def activePred (url : String) (r : TaskRec) : Bool :=
  r.url == url &&
    (r.status == "pending" || r.status == "downloading" || r.status == "processing")

/-- TaskDAO.get_active_task_by_url: SELECT * WHERE url = ? AND status IN
('pending','downloading','processing') ORDER BY created_at DESC LIMIT 1. -/
def get_active_task_by_url (store : List TaskRec) (url : String) : Option TaskRec :=
  (sortByCreatedDesc (store.filter (activePred url))).head?

/-- TaskDAO.get_completed_task_by_title: returns None for an empty title,
else SELECT * WHERE title = ? AND status = 'completed' ORDER BY
created_at DESC LIMIT 1. -/
def get_completed_task_by_title (store : List TaskRec) (title : String) : Option TaskRec :=
  if title = "" then none
  else (sortByCreatedDesc (store.filter (fun r =>
    r.title == some title && r.status == "completed"))).head?

/-- Python str.strip whitespace test (ASCII whitespace as relevant to
URLs). -/
def isPyWhitespace (c : Char) : Bool :=
  c == ' ' || c == '\t' || c == '\n' || c == '\r'

/-- Python url.strip() as called at the top of
DownloadManager.create_task. -/
def pyStrip (s : String) : String :=
  String.mk (((s.data.dropWhile isPyWhitespace).reverse.dropWhile isPyWhitespace).reverse)

/-- Results of the external collaborators consulted by create_task: the
YouTube video-info lookup (error message or title), the filename/path
generation (ValueError or success), the existing-file probe (size when
the file already exists), plus the generated uuid and the current
time. -/
structure CreateEnv where
  video_info : Except String String
  filename_ok : Except String Unit
  existing_file_size : Option Nat
  fresh_id : String
  now : Nat
deriving Repr

/-- A fresh DownloadTask row as built by DownloadTask.__init__: status
pending, progress 0, retry_count 0, timestamps stamped at creation. -/
def newTask (id url : String) (now : Nat) : TaskRec :=
  { task_id := id, url := url, status := "pending", created_at := now, last_updated := now }

/-- DownloadManager.create_task: normalize the url with strip, return any
active task for the normalized url; otherwise fetch video info (an
error yields a persisted error task); otherwise dedup by completed
title; otherwise generate the file path (failure yields a persisted
error task); otherwise a pre-existing file yields a persisted completed
task; otherwise persist a fresh pending task. -/
def create_task (env : CreateEnv) (url : String) (store : List TaskRec) :
    TaskRec × List TaskRec :=
  match get_active_task_by_url store (pyStrip url) with
  | some t => (t, store)
  | none =>
    match env.video_info with
    | Except.error e =>
      let t := { newTask env.fresh_id url env.now with
                 status := "error", error_message := some ("Failed to get video info: " ++ e) }
      (t, store ++ [t])
    | Except.ok video_title =>
      match (if video_title ≠ "" then get_completed_task_by_title store video_title else none) with
      | some t => (t, store)
      | none =>
        match env.filename_ok with
        | Except.error e =>
          let t := { newTask env.fresh_id url env.now with
                     status := "error", error_message := some ("Invalid URL: " ++ e) }
          (t, store ++ [t])
        | Except.ok _ =>
          match env.existing_file_size with
          | some size =>
            let t := { newTask env.fresh_id url env.now with
                       status := "completed", progress := 100,
                       status_message := "File already exists",
                       completed_at := some env.now,
                       total_bytes := size, downloaded_bytes := size,
                       title := some video_title }
            (t, store ++ [t])
          | none =>
            let t := { newTask env.fresh_id url env.now with title := some video_title }
            (t, store ++ [t])

/-- DownloadManager.start_task: the task must exist and be pending; it is
then stamped downloading with started_at. -/
def start_task (store : List TaskRec) (id : String) (now : Nat) :
    Except String (List TaskRec) :=
  match get_task store id with
  | none => Except.error "Task not found"
  | some t =>
    if t.status ≠ "pending" then Except.error "not in pending status"
    else Except.ok (update_task store id
      { status := some "downloading", started_at := some (some now) } now).1

/-- The update applied by _restore_active_tasks to every task found in
downloading status. -/
def restorePatch : TaskPatch :=
  { status := some "pending", status_message := some "Restored after service restart" }

/-- Folding a sequence of per-task restore updates over the store. -/
def applyRestore (store : List TaskRec) (now : Nat) (ds : List TaskRec) : List TaskRec :=
  ds.foldl (fun st t => (update_task st t.task_id restorePatch now).1) store

/-- DownloadManager._restore_active_tasks: every task read back in
downloading status is patched to pending with the restored-after-restart
message. -/
def restore_active_tasks (store : List TaskRec) (now : Nat) : List TaskRec :=
  applyRestore store now (get_tasks_by_status store "downloading")

/-- The update applied by cancel_task. -/
def cancelPatch (now : Nat) : TaskPatch :=
  { status := some "cancelled", completed_at := some (some now),
    status_message := some "Cancelled by user" }

/-- DownloadManager.cancel_task: missing task or a status outside
pending/downloading returns false without touching the store; otherwise
the task is patched to cancelled with completed_at stamped and the
update flag is returned. -/
def cancel_task (store : List TaskRec) (id : String) (now : Nat) : Bool × List TaskRec :=
  match get_task store id with
  | none => (false, store)
  | some t =>
    if t.status = "pending" ∨ t.status = "downloading" then
      let res := update_task store id (cancelPatch now) now
      (res.2, res.1)
    else (false, store)

/-- Where a cooperative cancellation (asyncio.CancelledError) is
delivered inside _download_task: during the download await of the given
attempt (1-based), during the backoff sleep after the given retry
(1-based), or never. -/
inductive CancelPoint where
  | duringDownload : Nat → CancelPoint
  | duringSleep : Nat → CancelPoint
  | never : CancelPoint
deriving DecidableEq, Repr

/-- Observable trace of the _download_task retry loop: number of loop
iterations (attempts), completed backoff sleeps in seconds, retry_count
values persisted by the retry update, and status values written by
terminal updates. -/
structure LoopTrace where
  attempts : Nat
  sleeps : List Nat
  persisted_retry_counts : List Nat
  status_writes : List String
deriving DecidableEq, Repr

/-- The _download_task retry loop (download_manager.py lines 328-380)
under a pipeline that raises a retryable error on every attempt, with a
cooperative cancellation possibly delivered at one point.  Each
iteration attempts the download; a cancellation during the await
returns with no status write; otherwise the failure is handled: at
retry_count >= max_retries the task is finished with a persisted error
status (set_error then _complete_task, which writes status 'error');
otherwise retry_count+1 is persisted and the loop sleeps
2^(retry_count-1) seconds, a cancellation during that sleep unwinding
with no status write. -/
def runRetryLoop (max_retries : Nat) (cp : CancelPoint) (rc : Nat) : LoopTrace :=
  if cp = CancelPoint.duringDownload (rc + 1) then
    { attempts := 1, sleeps := [], persisted_retry_counts := [], status_writes := [] }
  else if max_retries ≤ rc then
    { attempts := 1, sleeps := [], persisted_retry_counts := [], status_writes := ["error"] }
  else if cp = CancelPoint.duringSleep (rc + 1) then
    { attempts := 1, sleeps := [], persisted_retry_counts := [rc + 1], status_writes := [] }
  else
    let rest := runRetryLoop max_retries cp (rc + 1)
    { attempts := rest.attempts + 1,
      sleeps := 2 ^ rc :: rest.sleeps,
      persisted_retry_counts := (rc + 1) :: rest.persisted_retry_counts,
      status_writes := rest.status_writes }
termination_by max_retries - rc

/-- The list s, s+1, ..., s+n-1. -/
def natsFrom (s n : Nat) : List Nat :=
  match n with
  | 0 => []
  | n + 1 => s :: natsFrom (s + 1) n

/-- With no cancellation and a retryable failure on every attempt, the
loop from retry count rc performs m - rc + 1 further attempts, sleeps
2^rc, 2^(rc+1), ..., persists the retry counts rc+1, ..., m, and ends
with a single persisted error status. -/
theorem runRetryLoop_never_aux (n : Nat) : ∀ (m rc : Nat), m - rc = n → rc ≤ m →
    runRetryLoop m CancelPoint.never rc =
      { attempts := m - rc + 1,
        sleeps := (natsFrom rc (m - rc)).map (fun k => 2 ^ k),
        persisted_retry_counts := natsFrom (rc + 1) (m - rc),
        status_writes := ["error"] } := by
  induction n with
  | zero =>
    intro m rc h0 hle
    rw [runRetryLoop, if_neg (by simp), if_pos (show m ≤ rc by omega)]
    rw [h0]
    simp [natsFrom]
  | succ n ih =>
    intro m rc h0 hle
    rw [runRetryLoop, if_neg (by simp), if_neg (show ¬ m ≤ rc by omega), if_neg (by simp)]
    rw [ih m (rc + 1) (by omega) (by omega)]
    rw [show m - rc = n + 1 from h0, show m - (rc + 1) = n from by omega]
    simp [natsFrom]

/-- C5: under a retryable error on every attempt, retry_count is
persisted as 1, 2, ..., max_retries (exactly one increment per failed
attempt that leads to a retry), the k-th backoff sleep lasts
2^(persisted retry_count - 1) seconds, i.e. 1s, 2s, 4s, ..., and the
task reaches its terminal failure write (status persisted by
_complete_task after set_error) after exactly max_retries + 1 total
attempts. -/
theorem C5_retry_backoff (max_retries : Nat) :
    (runRetryLoop max_retries CancelPoint.never 0).attempts = max_retries + 1 ∧
    (runRetryLoop max_retries CancelPoint.never 0).persisted_retry_counts =
      natsFrom 1 max_retries ∧
    (runRetryLoop max_retries CancelPoint.never 0).sleeps =
      (runRetryLoop max_retries CancelPoint.never 0).persisted_retry_counts.map
        (fun rc => 2 ^ (rc - 1)) ∧
    (runRetryLoop max_retries CancelPoint.never 0).sleeps =
      (natsFrom 0 max_retries).map (fun k => 2 ^ k) ∧
    (runRetryLoop max_retries CancelPoint.never 0).status_writes = ["error"] := by
  have h := runRetryLoop_never_aux max_retries max_retries 0 (by omega) (by omega)
  rw [show max_retries - 0 = max_retries from rfl] at h
  rw [h]
  refine ⟨rfl, rfl, ?_, rfl, rfl⟩
  have hshift : ∀ (n s : Nat), (natsFrom (s + 1) n).map (fun rc => 2 ^ (rc - 1)) =
      (natsFrom s n).map (fun k => 2 ^ k) := by
    intro n
    induction n with
    | zero => intro s; rfl
    | succ n ih =>
      intro s
      simp only [natsFrom, List.map_cons, ih (s + 1)]
      simp
  exact (hshift max_retries 0).symm ▸ rfl

/-- A cancellation delivered during the download await of an attempt
that actually occurs makes the loop unwind without writing any status. -/
theorem runRetryLoop_cancel_download (n : Nat) : ∀ (m a rc : Nat), m - rc = n →
    rc < a → a ≤ m + 1 →
    (runRetryLoop m (CancelPoint.duringDownload a) rc).status_writes = [] := by
  induction n with
  | zero =>
    intro m a rc h0 hlt hle
    have ha : a = rc + 1 := by omega
    subst ha
    rw [runRetryLoop, if_pos rfl]
  | succ n ih =>
    intro m a rc h0 hlt hle
    by_cases hcp : a = rc + 1
    · subst hcp
      rw [runRetryLoop, if_pos rfl]
    · rw [runRetryLoop, if_neg (by simp [hcp]), if_neg (show ¬ m ≤ rc by omega),
        if_neg (by simp)]
      exact ih m a (rc + 1) (by omega) (by omega) hle

/-- A cancellation delivered during a backoff sleep that actually occurs
makes the loop unwind without writing any status. -/
theorem runRetryLoop_cancel_sleep (n : Nat) : ∀ (m k rc : Nat), m - rc = n →
    rc < k → k ≤ m →
    (runRetryLoop m (CancelPoint.duringSleep k) rc).status_writes = [] := by
  induction n with
  | zero =>
    intro m k rc h0 hlt hle
    exact absurd hlt (by omega)
  | succ n ih =>
    intro m k rc h0 hlt hle
    rw [runRetryLoop, if_neg (by simp), if_neg (show ¬ m ≤ rc by omega)]
    by_cases hcp : k = rc + 1
    · subst hcp
      rw [if_pos rfl]
    · rw [if_neg (by simp [hcp])]
      exact ih m k (rc + 1) (by omega) (by omega) hle

/-- Looking up the updated id after update_task returns the patched
version of the previous row. -/
theorem get_task_after_update (store : List TaskRec) (id : String) (p : TaskPatch) (now : Nat) :
    get_task (update_task store id p now).1 id = (get_task store id).map (applyPatch now p) := by
  induction store with
  | nil => rfl
  | cons r rs ih =>
    have hupd : (update_task (r :: rs) id p now).1 =
        (if r.task_id == id then applyPatch now p r else r) :: (update_task rs id p now).1 := by
      simp [update_task]
    rw [show get_task (update_task (r :: rs) id p now).1 id =
        List.find? (fun x => x.task_id == id) ((update_task (r :: rs) id p now).1) from rfl]
    rw [hupd]
    rw [show get_task (r :: rs) id = List.find? (fun x => x.task_id == id) (r :: rs) from rfl]
    by_cases h : (r.task_id == id) = true
    · rw [if_pos h]
      rw [List.find?_cons_of_pos ((update_task rs id p now).1)
        (show (fun x : TaskRec => x.task_id == id) (applyPatch now p r) = true from h)]
      rw [List.find?_cons_of_pos rs
        (show (fun x : TaskRec => x.task_id == id) r = true from h)]
      rfl
    · rw [if_neg h]
      rw [List.find?_cons_of_neg ((update_task rs id p now).1)
        (show ¬ (fun x : TaskRec => x.task_id == id) r = true from h)]
      rw [List.find?_cons_of_neg rs
        (show ¬ (fun x : TaskRec => x.task_id == id) r = true from h)]
      exact ih

/-- A found row witnesses the rowcount > 0 flag of update_task. -/
theorem update_task_found (store : List TaskRec) (id : String) (p : TaskPatch) (now : Nat)
    (t : TaskRec) (hget : get_task store id = some t) :
    (update_task store id p now).2 = true := by
  have hget' : store.find? (fun r => r.task_id == id) = some t := hget
  have hmem := List.mem_of_find?_eq_some hget'
  have hp := List.find?_some hget'
  unfold update_task
  simp only [List.any_eq_true]
  exact ⟨t, hmem, hp⟩

/-- C8: cancel_task returns false for any existing task whose status is
not pending or downloading; for a pending or downloading task it
returns true and the task is persisted as cancelled with completed_at
stamped; and a cancellation delivered during any actually-occurring
download await or backoff sleep makes the pipeline unwind without
writing any status at all - in particular no error (failure) status. -/
theorem C8_cancellation (store : List TaskRec) (id : String) (now : Nat) (t : TaskRec)
    (m a k : Nat) (ha1 : 1 ≤ a) (ha2 : a ≤ m + 1) (hk1 : 1 ≤ k) (hk2 : k ≤ m)
    (hget : get_task store id = some t) :
    (¬ (t.status = "pending" ∨ t.status = "downloading") →
      cancel_task store id now = (false, store)) ∧
    ((t.status = "pending" ∨ t.status = "downloading") →
      (cancel_task store id now).1 = true ∧
      ∃ t', get_task (cancel_task store id now).2 id = some t' ∧
        t'.status = "cancelled" ∧ t'.completed_at = some now ∧
        t'.status_message = "Cancelled by user") ∧
    (runRetryLoop m (CancelPoint.duringDownload a) 0).status_writes = [] ∧
    (runRetryLoop m (CancelPoint.duringSleep k) 0).status_writes = [] ∧
    "error" ∉ (runRetryLoop m (CancelPoint.duringDownload a) 0).status_writes ∧
    "failed" ∉ (runRetryLoop m (CancelPoint.duringSleep k) 0).status_writes := by
  have hdl := runRetryLoop_cancel_download (m - 0) m a 0 rfl (by omega) ha2
  have hsl := runRetryLoop_cancel_sleep (m - 0) m k 0 rfl (by omega) hk2
  refine ⟨?_, ?_, hdl, hsl, by simp [hdl], by simp [hsl]⟩
  · intro hno
    unfold cancel_task
    rw [hget]
    simp only [if_neg hno]
  · intro hyes
    unfold cancel_task
    rw [hget]
    simp only [if_pos hyes]
    refine ⟨update_task_found store id (cancelPatch now) now t hget, ?_⟩
    refine ⟨applyPatch now (cancelPatch now) t, ?_, rfl, rfl, rfl⟩
    rw [get_task_after_update, hget]
    rfl

/-- Reading an Option default twice collapses. -/
theorem getD_twice {α : Type} (o : Option α) (d : α) : o.getD (o.getD d) = o.getD d := by
  cases o <;> rfl

/-- Applying the same update dict twice equals applying it once. -/
theorem applyPatch_twice (now : Nat) (p : TaskPatch) (r : TaskRec) :
    applyPatch now p (applyPatch now p r) = applyPatch now p r := by
  simp [applyPatch, getD_twice]

/-- update_task does not change the number of rows. -/
theorem update_task_length (store : List TaskRec) (id : String) (p : TaskPatch) (now : Nat) :
    (update_task store id p now).1.length = store.length := by
  simp [update_task]

/-- Folding restore updates does not change the number of rows. -/
theorem applyRestore_length (now : Nat) (ds : List TaskRec) : ∀ store : List TaskRec,
    (applyRestore store now ds).length = store.length := by
  induction ds with
  | nil => intro store; rfl
  | cons d ds ih =>
    intro store
    rw [show applyRestore store now (d :: ds) =
        applyRestore (update_task store d.task_id restorePatch now).1 now ds from rfl]
    rw [ih, update_task_length]

/-- The effect of the restore fold on each row: a row whose task_id
matches some row of the update list is patched, every other row is
untouched. -/
theorem applyRestore_get (now : Nat) (ds : List TaskRec) :
    ∀ (store : List TaskRec) (i : Nat) (hi : i < store.length)
      (hig : i < (applyRestore store now ds).length),
      (applyRestore store now ds).get ⟨i, hig⟩ =
        if ds.any (fun d => d.task_id == (store.get ⟨i, hi⟩).task_id) then
          applyPatch now restorePatch (store.get ⟨i, hi⟩)
        else store.get ⟨i, hi⟩ := by
  induction ds with
  | nil =>
    intro store i hi hig
    simp [applyRestore]
  | cons d ds ih =>
    intro store i hi hig
    have hi' : i < (update_task store d.task_id restorePatch now).1.length := by
      rw [update_task_length]
      exact hi
    have hupd : (update_task store d.task_id restorePatch now).1.get ⟨i, hi'⟩ =
        if (store.get ⟨i, hi⟩).task_id == d.task_id then
          applyPatch now restorePatch (store.get ⟨i, hi⟩)
        else store.get ⟨i, hi⟩ := by
      have hmap : (update_task store d.task_id restorePatch now).1 =
          store.map (fun r => if r.task_id == d.task_id then
            applyPatch now restorePatch r else r) := rfl
      simp only [List.get_eq_getElem, hmap, List.getElem_map]
    have hstep : (applyRestore store now (d :: ds)).get ⟨i, hig⟩ =
        (applyRestore (update_task store d.task_id restorePatch now).1 now ds).get
          ⟨i, by rw [applyRestore_length, update_task_length]; exact hi⟩ := rfl
    rw [hstep]
    rw [ih (update_task store d.task_id restorePatch now).1 i hi'
      (by rw [applyRestore_length, update_task_length]; exact hi)]
    rw [hupd]
    by_cases hc : ((store.get ⟨i, hi⟩).task_id == d.task_id) = true
    · rw [if_pos hc]
      have htid : (applyPatch now restorePatch (store.get ⟨i, hi⟩)).task_id =
          (store.get ⟨i, hi⟩).task_id := rfl
      rw [htid, applyPatch_twice]
      have heq : (store.get ⟨i, hi⟩).task_id = d.task_id := beq_iff_eq.mp hc
      have hrhs : ((d :: ds).any (fun d' => d'.task_id == (store.get ⟨i, hi⟩).task_id)) = true := by
        simp only [List.any_cons, Bool.or_eq_true, beq_iff_eq]
        exact Or.inl heq.symm
      rw [if_pos hrhs]
      split <;> rfl
    · rw [if_neg hc]
      have heq : (store.get ⟨i, hi⟩).task_id ≠ d.task_id := by simpa using hc
      have hne : d.task_id ≠ store[i].task_id := fun hcon => heq hcon.symm
      simp [List.any_cons, hne]

/-- Membership is preserved by ordered insertion. -/
theorem mem_insertDesc {a r : TaskRec} : ∀ {l : List TaskRec},
    a ∈ insertDesc r l ↔ a = r ∨ a ∈ l := by
  intro l
  induction l with
  | nil => simp [insertDesc]
  | cons x xs ih =>
    simp only [insertDesc]
    split
    · simp only [List.mem_cons, ih]
      tauto
    · simp only [List.mem_cons]

/-- Sorting by created_at preserves membership. -/
theorem mem_sortByCreatedDesc {a : TaskRec} : ∀ {l : List TaskRec},
    a ∈ sortByCreatedDesc l ↔ a ∈ l := by
  intro l
  induction l with
  | nil => simp [sortByCreatedDesc]
  | cons x xs ih =>
    rw [show sortByCreatedDesc (x :: xs) = insertDesc x (sortByCreatedDesc xs) from rfl]
    rw [mem_insertDesc]
    simp [ih]

/-- With unique task ids (the PRIMARY KEY), equal ids force equal row
positions. -/
theorem nodup_ids_eq_idx (store : List TaskRec)
    (hnodup : (store.map (fun r => r.task_id)).Nodup)
    (i j : Fin store.length)
    (h : (store.get i).task_id = (store.get j).task_id) : i.val = j.val := by
  have hlen : store.length = (store.map (fun r => r.task_id)).length := by simp
  have h1 : (store.map (fun r => r.task_id)).get ⟨i.val, by omega⟩ =
      (store.map (fun r => r.task_id)).get ⟨j.val, by omega⟩ := by
    simp only [List.get_eq_getElem, List.getElem_map]
    simpa [List.get_eq_getElem] using h
  have h2 := (hnodup.get_inj_iff).mp h1
  simpa using h2

/-- C7: on startup every task found in downloading status is reset to
pending with the restored-after-restart message, and (given the task_id
PRIMARY KEY uniqueness) no other task is modified by the recovery
sweep. -/
theorem C7_restore (store : List TaskRec) (now : Nat)
    (hnodup : (store.map (fun r => r.task_id)).Nodup) :
    (restore_active_tasks store now).length = store.length ∧
    ∀ (i : Fin store.length) (hig : i.val < (restore_active_tasks store now).length),
      ((store.get i).status = "downloading" →
        ((restore_active_tasks store now).get ⟨i.val, hig⟩).status = "pending" ∧
        ((restore_active_tasks store now).get ⟨i.val, hig⟩).status_message =
          "Restored after service restart") ∧
      ((store.get i).status ≠ "downloading" →
        (restore_active_tasks store now).get ⟨i.val, hig⟩ = store.get i) := by
  refine ⟨applyRestore_length now (get_tasks_by_status store "downloading") store, ?_⟩
  intro i hig
  have hkey := applyRestore_get now (get_tasks_by_status store "downloading") store
    i.val i.isLt hig
  have hres : (restore_active_tasks store now).get ⟨i.val, hig⟩ =
      (applyRestore store now (get_tasks_by_status store "downloading")).get ⟨i.val, hig⟩ := rfl
  constructor
  · intro hdown
    have hany : ((get_tasks_by_status store "downloading").any
        (fun d => d.task_id == (store.get ⟨i.val, i.isLt⟩).task_id)) = true := by
      simp only [List.any_eq_true]
      refine ⟨store.get i, ?_, by simp⟩
      have hmem : store.get i ∈ store.filter (fun r => r.status == "downloading") :=
        List.mem_filter.mpr ⟨List.get_mem store i.val i.isLt,
          by simp only [beq_iff_eq]; exact hdown⟩
      exact mem_sortByCreatedDesc.mpr hmem
    rw [hres, hkey, if_pos hany]
    exact ⟨rfl, rfl⟩
  · intro hndown
    have hany : ((get_tasks_by_status store "downloading").any
        (fun d => d.task_id == (store.get ⟨i.val, i.isLt⟩).task_id)) = false := by
      rw [List.any_eq_false]
      intro d hd
      have hd' : d ∈ store.filter (fun r => r.status == "downloading") :=
        mem_sortByCreatedDesc.mp hd
      obtain ⟨hdmem, hdstat⟩ := List.mem_filter.mp hd'
      intro hcontra
      have heq : d.task_id = (store.get i).task_id := beq_iff_eq.mp hcontra
      obtain ⟨jd, hjd⟩ := List.mem_iff_get.mp hdmem
      have hval : jd.val = i.val := nodup_ids_eq_idx store hnodup jd i (by rw [hjd]; exact heq)
      have hji : store.get jd = store.get i := by
        congr 1
        exact Fin.ext hval
      rw [hjd] at hji
      apply hndown
      rw [← hji]
      exact beq_iff_eq.mp hdstat
    rw [hres, hkey, if_neg (by rw [hany]; exact Bool.false_ne_true)]

/-- The statuses the DAO's active query matches, as a proposition. -/
def isActiveDb (s : TaskRec) : Prop :=
  s.status = "pending" ∨ s.status = "downloading" ∨ s.status = "processing"

/-- Sorting a list whose elements are all equal to r yields the
corresponding replicate. -/
theorem sortByCreatedDesc_all_eq (r : TaskRec) : ∀ (l : List TaskRec), (∀ x ∈ l, x = r) →
    sortByCreatedDesc l = List.replicate l.length r := by
  have hins : ∀ n : Nat, insertDesc r (List.replicate n r) = List.replicate (n + 1) r := by
    intro n
    induction n with
    | zero => rfl
    | succ n ihn =>
      rw [List.replicate_succ]
      rw [show insertDesc r (r :: List.replicate n r) =
          if r.created_at > r.created_at then r :: insertDesc r (List.replicate n r)
          else r :: r :: List.replicate n r from rfl]
      rw [if_neg (lt_irrefl _)]
      rw [List.replicate_succ, List.replicate_succ]
  intro l
  induction l with
  | nil => intro h; rfl
  | cons x xs ih =>
    intro h
    have hx : x = r := h x (by simp)
    have hxs : ∀ y ∈ xs, y = r := fun y hy => h y (by simp [hy])
    rw [show sortByCreatedDesc (x :: xs) = insertDesc x (sortByCreatedDesc xs) from rfl]
    rw [ih hxs, hx]
    exact hins xs.length

/-- activePred decoded as a proposition. -/
theorem activePred_iff (url : String) (r : TaskRec) :
    activePred url r = true ↔ (r.url = url ∧ isActiveDb r) := by
  simp [activePred, isActiveDb, Bool.and_eq_true, Bool.or_eq_true, beq_iff_eq, or_assoc]

/-- When the store holds exactly one DAO-active row for a url, the
active-task query returns it. -/
theorem get_active_task_by_url_unique (store : List TaskRec) (u : String) (r : TaskRec)
    (hmem : r ∈ store) (hurl : r.url = u)
    (hact : r.status = "pending" ∨ r.status = "downloading")
    (huniq : ∀ s ∈ store, s.url = u → isActiveDb s → s = r) :
    get_active_task_by_url store u = some r := by
  have hallr : ∀ x ∈ store.filter (activePred u), x = r := by
    intro x hx
    obtain ⟨hxs, hxp⟩ := List.mem_filter.mp hx
    obtain ⟨hxu, hxa⟩ := (activePred_iff u x).mp hxp
    exact huniq x hxs hxu hxa
  have hrmem : r ∈ store.filter (activePred u) := by
    refine List.mem_filter.mpr ⟨hmem, (activePred_iff u r).mpr ⟨hurl, ?_⟩⟩
    rcases hact with h | h
    · exact Or.inl h
    · exact Or.inr (Or.inl h)
  have hlen : 0 < (store.filter (activePred u)).length := List.length_pos_of_mem hrmem
  unfold get_active_task_by_url
  rw [sortByCreatedDesc_all_eq r _ hallr]
  cases hn : (store.filter (activePred u)).length with
  | zero => rw [hn] at hlen; exact absurd hlen (by omega)
  | succ n => rw [List.replicate_succ]; rfl

/-- C6 counterexample store: one pending task whose stored url carries
surrounding whitespace. -/
def c6ActiveRec : TaskRec :=
  { task_id := "t0", url := " x ", status := "pending", created_at := 0 }

/-- C6 environment: the video-info lookup succeeds with title T, the
filename is valid, no file exists yet, and the generated uuid is t1. -/
def c6Env : CreateEnv :=
  { video_info := Except.ok "T", filename_ok := Except.ok (),
    existing_file_size := none, fresh_id := "t1", now := 5 }

/-- C6: the claim as stated is false: the store holds an active (pending)
task for the url " x ", yet create_task with the very same url creates
and persists a second task, because the dedup lookup uses the stripped
url "x" while the stored row kept the raw url. -/
theorem C6_counterexample :
    c6ActiveRec.url = " x " ∧
    c6ActiveRec.status = "pending" ∧
    (create_task c6Env " x " [c6ActiveRec]).1.task_id = "t1" ∧
    (create_task c6Env " x " [c6ActiveRec]).1.task_id ≠ c6ActiveRec.task_id ∧
    (create_task c6Env " x " [c6ActiveRec]).2.length = 2 := by
  refine ⟨rfl, rfl, ?_, ?_, ?_⟩ <;> decide

/-- C6 (amended): for a url equal to its stripped form, if the store
holds an active (pending or downloading) task with that url and no other
row with that url is in a DAO-active status, create_task returns that
existing task and creates no new record. -/
theorem C6_amended (env : CreateEnv) (url : String) (store : List TaskRec) (r : TaskRec)
    (htrim : pyStrip url = url)
    (hmem : r ∈ store) (hurl : r.url = url)
    (hact : r.status = "pending" ∨ r.status = "downloading")
    (huniq : ∀ s ∈ store, s.url = url → isActiveDb s → s = r) :
    create_task env url store = (r, store) := by
  have hga : get_active_task_by_url store (pyStrip url) = some r := by
    rw [htrim]
    exact get_active_task_by_url_unique store url r hmem hurl hact huniq
  unfold create_task
  rw [hga]

/-- C6 witness store: one downloading task for the clean url x. -/
def c6CleanRec : TaskRec :=
  { task_id := "t2", url := "x", status := "downloading", created_at := 3 }

/-- C6 witness: resubmitting the clean url returns the existing active
task and leaves the store unchanged. -/
theorem C6_amended_witness :
    pyStrip "x" = "x" ∧
    c6CleanRec ∈ ([c6CleanRec] : List TaskRec) ∧
    c6CleanRec.url = "x" ∧
    (c6CleanRec.status = "pending" ∨ c6CleanRec.status = "downloading") ∧
    create_task c6Env "x" [c6CleanRec] = (c6CleanRec, [c6CleanRec]) := by
  have h1 : pyStrip "x" = "x" := by decide
  have h2 : c6CleanRec ∈ ([c6CleanRec] : List TaskRec) := by simp
  have h3 : c6CleanRec.url = "x" := rfl
  have h4 : c6CleanRec.status = "pending" ∨ c6CleanRec.status = "downloading" := Or.inr rfl
  have h5 : ∀ s ∈ ([c6CleanRec] : List TaskRec), s.url = "x" → isActiveDb s → s = c6CleanRec := by
    intro s hs _ _
    simpa using hs
  exact ⟨h1, h2, h3, h4, C6_amended c6Env "x" [c6CleanRec] c6CleanRec h1 h2 h3 h4 h5⟩

/-- Every store create_task leaves behind is the old store or the old
store plus one persisted task whose status is pending, completed or
error. -/
theorem create_task_statuses (env : CreateEnv) (url : String) (store : List TaskRec) :
    (create_task env url store).2 = store ∨
    ∃ t : TaskRec, (create_task env url store).2 = store ++ [t] ∧
      (t.status = "pending" ∨ t.status = "completed" ∨ t.status = "error") := by
  unfold create_task
  split
  · exact Or.inl rfl
  · split
    · exact Or.inr ⟨_, rfl, Or.inr (Or.inr rfl)⟩
    · split
      · exact Or.inl rfl
      · split
        · exact Or.inr ⟨_, rfl, Or.inr (Or.inr rfl)⟩
        · split
          · exact Or.inr ⟨_, rfl, Or.inr (Or.inl rfl)⟩
          · exact Or.inr ⟨_, rfl, Or.inl rfl⟩

/-- Rows after an update whose patch writes an enum status keep enum
statuses. -/
theorem update_task_statuses (store : List TaskRec) (id : String) (p : TaskPatch) (now : Nat)
    (s : String) (hp : p.status = some s) (hs : s ∈ enumStatusStrings)
    (hstore : ∀ r ∈ store, r.status ∈ enumStatusStrings) :
    ∀ r ∈ (update_task store id p now).1, r.status ∈ enumStatusStrings := by
  intro r hr
  have hr' : r ∈ store.map (fun r0 =>
      if r0.task_id == id then applyPatch now p r0 else r0) := hr
  obtain ⟨r0, hr0, heq⟩ := List.mem_map.mp hr'
  by_cases hc : (r0.task_id == id) = true
  · rw [if_pos hc] at heq
    rw [← heq]
    have hst : (applyPatch now p r0).status = s := by simp [applyPatch, hp]
    rw [hst]
    exact hs
  · rw [if_neg hc] at heq
    rw [← heq]
    exact hstore r0 hr0

/-- Restore keeps statuses inside the enum. -/
theorem applyRestore_statuses (now : Nat) (ds : List TaskRec) : ∀ store : List TaskRec,
    (∀ r ∈ store, r.status ∈ enumStatusStrings) →
    ∀ r ∈ applyRestore store now ds, r.status ∈ enumStatusStrings := by
  induction ds with
  | nil => intro store h; exact h
  | cons d ds ih =>
    intro store h
    rw [show applyRestore store now (d :: ds) =
        applyRestore (update_task store d.task_id restorePatch now).1 now ds from rfl]
    exact ih _ (update_task_statuses store d.task_id restorePatch now "pending" rfl
      (by simp [enumStatusStrings]) h)

/-- C9 counterexample: a concrete run that exhausts its retries persists
the status string error, which is neither failed nor any member of the
status set the claim names. -/
theorem C9_counterexample :
    (runRetryLoop 3 CancelPoint.never 0).status_writes = ["error"] ∧
    "error" ∉ ["pending", "downloading", "completed", "failed", "cancelled"] ∧
    "error" ≠ "failed" := by
  refine ⟨?_, by decide, by decide⟩
  have h := runRetryLoop_never_aux 3 3 0 rfl (by omega)
  rw [h]

/-- C9 (amended): every task status persisted by the modelled operations
is one of the five enum values pending, downloading, completed, error,
cancelled (DownloadTaskStatus has ERROR, not FAILED); in particular a
pipeline that exhausts its retries persists the status error. -/
theorem C9_amended (env : CreateEnv) (url : String) (store : List TaskRec)
    (id : String) (now m : Nat)
    (hstore : ∀ r ∈ store, r.status ∈ enumStatusStrings) :
    (∀ r ∈ (create_task env url store).2, r.status ∈ enumStatusStrings) ∧
    (∀ st, start_task store id now = Except.ok st →
      ∀ r ∈ st, r.status ∈ enumStatusStrings) ∧
    (∀ r ∈ (cancel_task store id now).2, r.status ∈ enumStatusStrings) ∧
    (∀ r ∈ restore_active_tasks store now, r.status ∈ enumStatusStrings) ∧
    (∀ s ∈ (runRetryLoop m CancelPoint.never 0).status_writes, s ∈ enumStatusStrings) ∧
    (runRetryLoop m CancelPoint.never 0).status_writes = ["error"] := by
  have hwrites : (runRetryLoop m CancelPoint.never 0).status_writes = ["error"] := by
    have h := runRetryLoop_never_aux m m 0 rfl (by omega)
    rw [h]
  refine ⟨?_, ?_, ?_, ?_, ?_, hwrites⟩
  · intro r hr
    rcases create_task_statuses env url store with h | ⟨t, h, hts⟩
    · rw [h] at hr
      exact hstore r hr
    · rw [h] at hr
      rcases List.mem_append.mp hr with hm | hm
      · exact hstore r hm
      · have : r = t := by simpa using hm
        subst this
        rcases hts with h1 | h1 | h1 <;> simp [h1, enumStatusStrings]
  · intro st hok
    unfold start_task at hok
    cases hg : get_task store id with
    | none => rw [hg] at hok; cases hok
    | some t =>
      rw [hg] at hok
      have hok2 : (if t.status ≠ "pending" then
          (Except.error "not in pending status" : Except String (List TaskRec))
        else Except.ok (update_task store id
          { status := some "downloading", started_at := some (some now) } now).1) =
          Except.ok st := hok
      by_cases hp : t.status ≠ "pending"
      · rw [if_pos hp] at hok2
        cases hok2
      · rw [if_neg hp] at hok2
        obtain rfl : _ = st := by injection hok2
        exact update_task_statuses store id _ now "downloading" rfl
          (by simp [enumStatusStrings]) hstore
  · intro r hr
    unfold cancel_task at hr
    cases hg : get_task store id with
    | none => rw [hg] at hr; exact hstore r hr
    | some t =>
      rw [hg] at hr
      have hr2 : r ∈ (if t.status = "pending" ∨ t.status = "downloading" then
          ((update_task store id (cancelPatch now) now).2,
            (update_task store id (cancelPatch now) now).1)
        else (false, store)).2 := hr
      by_cases hc : t.status = "pending" ∨ t.status = "downloading"
      · rw [if_pos hc] at hr2
        exact update_task_statuses store id (cancelPatch now) now "cancelled" rfl
          (by simp [enumStatusStrings]) hstore r hr2
      · rw [if_neg hc] at hr2
        exact hstore r hr2
  · exact applyRestore_statuses now (get_tasks_by_status store "downloading") store hstore
  · intro s hs
    rw [hwrites] at hs
    have : s = "error" := by simpa using hs
    subst this
    simp [enumStatusStrings]

/-- C7 witness store: one downloading task and one completed task. -/
def c7DlRec : TaskRec :=
  { task_id := "a", url := "u1", status := "downloading", created_at := 1 }

/-- C7 witness store: the completed task the sweep must not touch. -/
def c7DoneRec : TaskRec :=
  { task_id := "b", url := "u2", status := "completed", created_at := 2 }

/-- C7 witness: the two-row store has unique ids and the recovery sweep
behaves as stated on it. -/
theorem C7_restore_witness :
    (([c7DlRec, c7DoneRec] : List TaskRec).map (fun r => r.task_id)).Nodup ∧
    (restore_active_tasks [c7DlRec, c7DoneRec] 9).length =
      ([c7DlRec, c7DoneRec] : List TaskRec).length ∧
    ∀ (i : Fin ([c7DlRec, c7DoneRec] : List TaskRec).length)
      (hig : i.val < (restore_active_tasks [c7DlRec, c7DoneRec] 9).length),
      ((([c7DlRec, c7DoneRec] : List TaskRec).get i).status = "downloading" →
        ((restore_active_tasks [c7DlRec, c7DoneRec] 9).get ⟨i.val, hig⟩).status = "pending" ∧
        ((restore_active_tasks [c7DlRec, c7DoneRec] 9).get ⟨i.val, hig⟩).status_message =
          "Restored after service restart") ∧
      ((([c7DlRec, c7DoneRec] : List TaskRec).get i).status ≠ "downloading" →
        (restore_active_tasks [c7DlRec, c7DoneRec] 9).get ⟨i.val, hig⟩ =
          ([c7DlRec, c7DoneRec] : List TaskRec).get i) := by
  have h1 : (([c7DlRec, c7DoneRec] : List TaskRec).map (fun r => r.task_id)).Nodup := by
    decide
  have h := C7_restore [c7DlRec, c7DoneRec] 9 h1
  exact ⟨h1, h.1, h.2⟩

/-- C8 witness task: a downloading task. -/
def c8Rec : TaskRec :=
  { task_id := "t", url := "u", status := "downloading", created_at := 0 }

/-- C8 witness: at the concrete downloading task, cancellation behaves as
stated with max_retries 2 and cancellation points at attempt 1 or
sleep 1. -/
theorem C8_cancellation_witness :
    (1:Nat) ≤ 1 ∧ (1:Nat) ≤ 2 + 1 ∧ (1:Nat) ≤ 2 ∧
    get_task [c8Rec] "t" = some c8Rec ∧
    ((¬ (c8Rec.status = "pending" ∨ c8Rec.status = "downloading") →
      cancel_task [c8Rec] "t" 7 = (false, [c8Rec])) ∧
    ((c8Rec.status = "pending" ∨ c8Rec.status = "downloading") →
      (cancel_task [c8Rec] "t" 7).1 = true ∧
      ∃ t', get_task (cancel_task [c8Rec] "t" 7).2 "t" = some t' ∧
        t'.status = "cancelled" ∧ t'.completed_at = some 7 ∧
        t'.status_message = "Cancelled by user") ∧
    (runRetryLoop 2 (CancelPoint.duringDownload 1) 0).status_writes = [] ∧
    (runRetryLoop 2 (CancelPoint.duringSleep 1) 0).status_writes = [] ∧
    "error" ∉ (runRetryLoop 2 (CancelPoint.duringDownload 1) 0).status_writes ∧
    "failed" ∉ (runRetryLoop 2 (CancelPoint.duringSleep 1) 0).status_writes) := by
  have hget : get_task [c8Rec] "t" = some c8Rec := by decide
  exact ⟨by decide, by decide, by decide, hget,
    C8_cancellation [c8Rec] "t" 7 c8Rec 2 1 1 (by decide) (by decide) (by decide)
      (by decide) hget⟩

/-- C9 witness: the empty store satisfies the status-validity hypothesis
and all the persisted-status conclusions hold at concrete inputs. -/
theorem C9_amended_witness :
    (∀ r ∈ ([] : List TaskRec), r.status ∈ enumStatusStrings) ∧
    (∀ r ∈ (create_task c6Env "y" []).2, r.status ∈ enumStatusStrings) ∧
    (∀ st, start_task [] "t" 0 = Except.ok st → ∀ r ∈ st, r.status ∈ enumStatusStrings) ∧
    (∀ r ∈ (cancel_task [] "t" 0).2, r.status ∈ enumStatusStrings) ∧
    (∀ r ∈ restore_active_tasks [] 0, r.status ∈ enumStatusStrings) ∧
    (∀ s ∈ (runRetryLoop 1 CancelPoint.never 0).status_writes, s ∈ enumStatusStrings) ∧
    (runRetryLoop 1 CancelPoint.never 0).status_writes = ["error"] := by
  have h0 : ∀ r ∈ ([] : List TaskRec), r.status ∈ enumStatusStrings := by simp
  have h := C9_amended c6Env "y" [] "t" 0 1 h0
  exact ⟨h0, h.1, h.2.1, h.2.2.1, h.2.2.2.1, h.2.2.2.2.1, h.2.2.2.2.2⟩
